import Mathlib

/-!
# Verification of the mlgo feed-forward neural-network trainer

A shallow embedding of the mlgo repository (a Go neural-network library)
into Lean 4, together with theorems settling a list of specification
claims about it.

Modelling conventions:
* Go `float64` values are modelled as rationals (`ℚ`); the transcendental
  `math.Log` / `math.Exp` are kept abstract as explicit function
  parameters, since none of the verified claims depend on their values.
* A Go matrix (`matrix.matrix[T]`, a struct holding a `[][]T`) is a Lean
  structure holding a `List (List ℚ)`.
* Go methods that return `(value, error)` whose error is discarded by every
  caller in scope (`v, _ := m.At(i, j)`, which yields the zero value on
  error) are modelled as total functions returning that same value.
* Matrix operations that return `(Matrix, error)` are modelled as
  `Option Mat`; `none` corresponds to the Go error (and to the panic that
  follows when a caller stores the accompanying `nil` and keeps using it).
* The column-parallel goroutine fan-outs in the Go code all write disjoint
  destination columns and join before returning, so they are modelled by
  their sequential result.
-/

namespace Mlgo

/-- A dense row-major rational matrix: the `matrix[T]` struct of
`matrix/utils.go`, whose only field is the backing slice `data [][]T`. -/
structure Mat where
  data : List (List ℚ)
deriving Repr, DecidableEq

namespace Mat

/-- `RowCount`: `len(m.data)`. -/
def rowCount (m : Mat) : ℕ := m.data.length

/-- `ColumnCount`: `len(m.data[0])` if there is a row, else `0`. -/
def colCount (m : Mat) : ℕ := (m.data.headD []).length

/-- The Go data is rectangular whenever it was built by the constructors:
every row has the length of the first. -/
def Wellformed (m : Mat) : Prop := ∀ r ∈ m.data, r.length = m.colCount

instance (m : Mat) : Decidable m.Wellformed := by
  unfold Wellformed; infer_instance

/-- `inRange(i, j)`: `0 <= i < RowCount && 0 <= j < ColumnCount`. -/
def inRange (m : Mat) (i j : ℕ) : Prop := i < m.rowCount ∧ j < m.colCount

instance (m : Mat) (i j : ℕ) : Decidable (m.inRange i j) := by
  unfold inRange; infer_instance

/-- `At(i, j)`: the entry at row `i`, column `j`.  The Go method returns
`(0, error)` when the indices are out of range; every caller below discards
the error and uses the value, so we model `At` by that value directly. -/
def At (m : Mat) (i j : ℕ) : ℚ :=
  if m.inRange i j then (m.data.getD i []).getD j 0 else 0

/-- Build an `r × c` matrix from an entry function.  This renders the
ubiquitous Go pattern `m := NewZeroMatrix(r, c); for .. { m.Set(i, j, f(i,j)) }`
(each `Set` writes one entry of the fresh matrix exactly once). -/
def mk' (r c : ℕ) (f : ℕ → ℕ → ℚ) : Mat :=
  ⟨(List.range r).map fun i => (List.range c).map fun j => f i j⟩

/-- `NewZeroMatrix`. -/
def newZeroMatrix (r c : ℕ) : Mat := mk' r c fun _ _ => 0

/-- `NewOnesMatrix`. -/
def newOnesMatrix (r c : ℕ) : Mat := mk' r c fun _ _ => 1

/-- `AreSameSize`. -/
def areSameSize (m1 m2 : Mat) : Prop :=
  m1.rowCount = m2.rowCount ∧ m1.colCount = m2.colCount

instance (m1 m2 : Mat) : Decidable (m1.areSameSize m2) := by
  unfold areSameSize; infer_instance

/-- `Add`: elementwise sum; errors with "matrices are not the same size"
unless both operands have identical dimensions. -/
def add (m1 m2 : Mat) : Option Mat :=
  if m1.areSameSize m2 then
    some (mk' m1.rowCount m1.colCount fun i j => m1.At i j + m2.At i j)
  else none

/-- `MultiplyByScalar`: never fails. -/
def multiplyByScalar (m : Mat) (k : ℚ) : Mat :=
  mk' m.rowCount m.colCount fun i j => m.At i j * k

/-- `Multiply`: the standard matrix product; errors with "matrices are not
conformable under multiplication" unless `left.columns == right.rows`.
The inner loop accumulates `value += m1.At(i,k) * m2.At(k,j)` over `k`. -/
def multiply (m1 m2 : Mat) : Option Mat :=
  if m1.colCount = m2.rowCount then
    some (mk' m1.rowCount m2.colCount fun i j =>
      ((List.range m1.colCount).map fun k => m1.At i k * m2.At k j).sum)
  else none

/-- `MultiplyElementwise`: errors unless both operands have identical size. -/
def multiplyElementwise (m1 m2 : Mat) : Option Mat :=
  if m1.areSameSize m2 then
    some (mk' m1.rowCount m1.colCount fun i j => m1.At i j * m2.At i j)
  else none

/-- `T()`: transpose, never fails. -/
def transpose (m : Mat) : Mat :=
  mk' m.colCount m.rowCount fun i j => m.At j i

/-- `DeepCopy`: a fresh matrix with identical values. -/
def deepCopy (m : Mat) : Mat := mk' m.rowCount m.colCount m.At

/-- `ApplyByElement`: mutates every entry through `f`; modelled as the
resulting matrix. -/
def applyByElement (f : ℚ → ℚ) (m : Mat) : Mat :=
  mk' m.rowCount m.colCount fun i j => f (m.At i j)

/-- `matrix.Clip(M, lower, upper)`: deep-copies and then bounds every entry,
checking `v < lower` before `v > upper` exactly as the Go code does. -/
def clip (m : Mat) (lower upper : ℚ) : Mat :=
  mk' m.rowCount m.colCount fun i j =>
    let v := m.At i j
    if v < lower then lower else if v > upper then upper else v

end Mat

/-! ## Training parameters (`utils/parameters.go`) -/

/-- `NeuralNetworkParameters`.  `ClipValue` is a Go `float64` whose
validated default is `math.Inf(1)` (no clipping); since `ℚ` has no
infinity we model that one float value as `none`.  `AccuracyMetric` is the
caller-injected metric callable. -/
structure NNP where
  currentEpoch : ℕ
  EpochCount : ℕ
  LearningRateDecay : ℚ
  InitialLearningRate : ℚ
  WeightDecay : ℚ
  ClipValue : Option ℚ
  AccuracyMetric : Mat → Mat → ℚ

namespace NNP

/-- `LearningRate()`: `InitialLearningRate / (1 + LearningRateDecay*float64(currentEpoch))`. -/
def LearningRate (p : NNP) : ℚ :=
  p.InitialLearningRate / (1 + p.LearningRateDecay * (p.currentEpoch : ℚ))

/-- `Validate()`: `InitialLearningRate == 0` becomes `0.01`,
`EpochCount == 0` becomes `5`, `ClipValue == 0` becomes `math.Inf(1)`
(modelled as `none`). -/
def Validate (p : NNP) : NNP :=
  { p with
    InitialLearningRate :=
      if p.InitialLearningRate = 0 then 1/100 else p.InitialLearningRate
    EpochCount := if p.EpochCount = 0 then 5 else p.EpochCount
    ClipValue :=
      match p.ClipValue with
      | some c => if c = 0 then none else some c
      | none => none }

/-- `ResetEpoch()`. -/
def ResetEpoch (p : NNP) : NNP := { p with currentEpoch := 0 }

/-- `IncrementEpoch()`. -/
def IncrementEpoch (p : NNP) : NNP := { p with currentEpoch := p.currentEpoch + 1 }

end NNP

/-- The inter-layer gradient clipping step
`Clip(backPropagation, -parameters.ClipValue, parameters.ClipValue)` of
`nn.BackPropagate`.  A `none` clip value is the validated `math.Inf(1)`:
`v < -inf` and `v > +inf` are both false for every float, so the Go `Clip`
then only deep-copies. -/
def nnClip (m : Mat) (clipValue : Option ℚ) : Mat :=
  match clipValue with
  | some c => m.clip (-c) c
  | none => m.deepCopy

/-! ## Activation functions (`activation/`)

`dense.BackPropagate` consumes activations through the
`ActivationFunction` interface of `activation/general.go`: `ApplyMatrix`
mutates a column-batched matrix in place and `BackPropagateMatrix`
computes the derivative matrix in place from the cached activated output.
We model both as functions on matrices and keep the variants as record
instances. -/
structure ActivationFunction where
  applyMatrix : Mat → Mat
  backPropagateMatrix : Mat → Mat

/-- `Sigmoid` (`activation/sigmoid.go`): `Apply(z) = 1/(1+exp(-z))`
elementwise, `BackPropagate(z) = z*(1-z)` elementwise on the cached
output.  `math.Exp` is abstract, passed as `rexp`. -/
def sigmoidActivation (rexp : ℚ → ℚ) : ActivationFunction where
  applyMatrix := Mat.applyByElement fun z => 1 / (1 + rexp (-z))
  backPropagateMatrix := Mat.applyByElement fun z => z * (1 - z)

/-- `Linear`: `ApplyMatrix` is a no-op, and per the interface contract of
`activation/general.go` its `BackPropagateMatrix` leaves the given data
unmodified ("Linear activation function BackPropagate(z) would return z
... as the linear function does not modify it in any way"). -/
def linearActivation : ActivationFunction where
  applyMatrix := id
  backPropagateMatrix := id

/-! ## Loss functions (`loss/`)

`math.Log` is abstract, passed as `rlog`. -/

/-- `SquareLoss` (`loss/square.go`). -/
structure SquareLoss where

/-- `SquareLoss.ApplyMatrix`: `diff, _ := y.Add(yHat.MultiplyByScalar(-1))`
then squares and halves every entry in place. -/
def SquareLoss.ApplyMatrix (_ : SquareLoss) (y yHat : Mat) : Option Mat :=
  (y.add (yHat.multiplyByScalar (-1))).map
    (Mat.applyByElement fun t => t * t / 2)

/-- `SquareLoss.ApplyDerivativeMatrix`: `yHat.Add(y.MultiplyByScalar(-1))`. -/
def SquareLoss.ApplyDerivativeMatrix (_ : SquareLoss) (y yHat : Mat) : Option Mat :=
  yHat.add (y.multiplyByScalar (-1))

/-- `LogLoss` (`loss/log.go`). -/
structure LogLoss where

/-- `LogLoss.ApplyMatrix`:
`-y*Log(yHat) - (1-y)*Log(1-yHat)`, assembled exactly as in the source
from two elementwise logarithm matrices and two elementwise products. -/
def LogLoss.ApplyMatrix (rlog : ℚ → ℚ) (_ : LogLoss) (y yHat : Mat) : Option Mat :=
  let ln_yHat := Mat.applyByElement (fun t => rlog t) yHat.deepCopy
  let ln_1_yHat := Mat.applyByElement (fun t => rlog (1 - t)) yHat.deepCopy
  (y.multiplyElementwise ln_yHat).bind fun p1 =>
  ((Mat.applyByElement (fun t => 1 - t) y.deepCopy).multiplyElementwise
      ln_1_yHat).bind fun p2 =>
  (p1.add p2).map fun result => result.multiplyByScalar (-1)

/-- `CategoricalCrossEntropyLoss` (`loss/crossentropy.go`, the
label-smoothing revision with field `LabelSmoothingClip`). -/
structure CCELoss where
  LabelSmoothingClip : ℚ

/-- `CategoricalCrossEntropyLoss.ApplyMatrix`: builds a `1 × ColumnCount`
matrix whose entry at column `j` is `Σ_i -y[i][j] * Log(yHat[i][j])`. -/
def CCELoss.ApplyMatrix (rlog : ℚ → ℚ) (_ : CCELoss) (y yHat : Mat) : Mat :=
  Mat.mk' 1 y.colCount fun _ j =>
    ((List.range y.rowCount).map fun i => -(y.At i j) * rlog (yHat.At i j)).sum

/-- `CategoricalCrossEntropyLoss.ApplyDerivativeMatrix`:
`Clip(y, clip/N, 1-clip)` elementwise-multiplied with `-1/yHat`. -/
def CCELoss.ApplyDerivativeMatrix (l : CCELoss) (y yHat : Mat) : Option Mat :=
  let smoothedLabel := y.clip (l.LabelSmoothingClip / (y.colCount : ℚ))
    (1 - l.LabelSmoothingClip)
  let denominator := Mat.applyByElement (fun x => 1 / x) (yHat.multiplyByScalar (-1))
  smoothedLabel.multiplyElementwise denominator

/-- `CCELossWithSoftmax` embeds `CategoricalCrossEntropyLoss` (its forward
cost `ApplyMatrix` is inherited unchanged) and overrides only the
derivative. -/
structure CCELossWithSoftmax where
  toCCELoss : CCELoss

/-- `CCELossWithSoftmax.ApplyMatrix` is the promoted
`CategoricalCrossEntropyLoss.ApplyMatrix`. -/
def CCELossWithSoftmax.ApplyMatrix (rlog : ℚ → ℚ) (l : CCELossWithSoftmax)
    (y yHat : Mat) : Mat :=
  l.toCCELoss.ApplyMatrix rlog y yHat

/-- `CCELossWithSoftmax.ApplyDerivativeMatrix` (label-smoothing revision of
`loss/crossentropy.go`): `yHat.Add(smoothedLabel.MultiplyByScalar(-1))`
where `smoothedLabel = Clip(y, clip/N, 1-clip)`. -/
def CCELossWithSoftmax.ApplyDerivativeMatrix (l : CCELossWithSoftmax)
    (y yHat : Mat) : Option Mat :=
  let smoothedLabel := y.clip (l.toCCELoss.LabelSmoothingClip / (y.colCount : ℚ))
    (1 - l.toCCELoss.LabelSmoothingClip)
  yHat.add (smoothedLabel.multiplyByScalar (-1))

/-- `CCELossWithSoftmax.ApplyDerivativeMatrix` in the earlier revision of
`loss/crossentropy.go` (no label smoothing): exactly
`yHat.Add(y.MultiplyByScalar(-1))`, i.e. `prediction - label`. -/
def CCELossWithSoftmaxV1.ApplyDerivativeMatrix (y yHat : Mat) : Option Mat :=
  yHat.add (y.multiplyByScalar (-1))

/-- The `LossFunction[T]` interface as consumed by the network: batched
cost and batched gradient. -/
structure LossFunction where
  applyMatrix : Mat → Mat → Option Mat
  applyDerivativeMatrix : Mat → Mat → Option Mat

/-- `SquareLoss` packaged as a `LossFunction`. -/
def squareLossF : LossFunction where
  applyMatrix := SquareLoss.ApplyMatrix ⟨⟩
  applyDerivativeMatrix := SquareLoss.ApplyDerivativeMatrix ⟨⟩

/-- `CCELossWithSoftmax` packaged as a `LossFunction`. -/
def cceWithSoftmaxF (rlog : ℚ → ℚ) (clipv : ℚ) : LossFunction where
  applyMatrix y yHat := some (CCELossWithSoftmax.ApplyMatrix rlog ⟨⟨clipv⟩⟩ y yHat)
  applyDerivativeMatrix := CCELossWithSoftmax.ApplyDerivativeMatrix ⟨⟨clipv⟩⟩

/-! ## The Dense layer (`nn/layers/dense.go`) -/

/-- The `dense` struct: weight and bias matrices plus one activation. -/
structure Dense where
  weights : Mat
  bias : Mat
  activation : ActivationFunction

namespace Dense

/-- `ForwardPropagate(X)`:
`Z = W·X + b·ones(1, N)` followed by the in-place activation. -/
def ForwardPropagate (d : Dense) (X : Mat) : Option Mat :=
  (d.weights.multiply X).bind fun linearCombination =>
  (d.bias.multiply (Mat.newOnesMatrix 1 X.colCount)).bind fun broadcastedBias =>
  (linearCombination.add broadcastedBias).map fun result =>
  d.activation.applyMatrix result

/-- `updateWeights(dLdZ, input, parameters)`:
`db = dLdZ·ones(N,1)`, `dW = dLdZ·inputᵀ`,
`W ← W - lr·(dW/N + weightDecay·W)`, `b ← b - lr·(db/N + weightDecay·b)`,
in the exact operation order of the source (the bias update reads the old
bias, after the weight field was already reassigned). -/
def updateWeights (d : Dense) (dLdZ input : Mat) (p : NNP) : Option Dense :=
  (dLdZ.multiply (Mat.newOnesMatrix input.colCount 1)).bind fun db =>
  (dLdZ.multiply input.transpose).bind fun dW =>
  let columns : ℚ := (input.colCount : ℚ)
  ((dW.multiplyByScalar (1/columns)).add
      (d.weights.multiplyByScalar p.WeightDecay)).bind fun decayed_dW =>
  (d.weights.add (decayed_dW.multiplyByScalar (-p.LearningRate))).bind fun w' =>
  ((db.multiplyByScalar (1/columns)).add
      (d.bias.multiplyByScalar p.WeightDecay)).bind fun decayed_db =>
  (d.bias.add (decayed_db.multiplyByScalar (-p.LearningRate))).map fun b' =>
  { d with weights := w', bias := b' }

/-- `BackPropagate(nextLayerPropagation, X, A, parameters)`:
`dAdZ` is the activation derivative of the deep-copied cached output `A`,
`dLdZ = nextLayerPropagation ⊙ dAdZ`; the layer then updates its own
weights and finally returns `d.Weights().T() · dLdZ` — reading the weight
field *after* the update just performed. -/
def BackPropagate (d : Dense) (nextLayerPropagation X A : Mat) (p : NNP) :
    Option (Mat × Dense) :=
  let dAdZ := d.activation.backPropagateMatrix A.deepCopy
  (nextLayerPropagation.multiplyElementwise dAdZ).bind fun dLdZ =>
  (d.updateWeights dLdZ X p).bind fun d' =>
  (d'.weights.transpose.multiply dLdZ).map fun result => (result, d')

end Dense

/-! ## The Dropout layer (`nn/layers/dropout.go`)

`ForwardPropagate` starts from `Y = uniformMatrix(X.Size(), 0, 1)` — an
independent uniform draw per entry — and then, for every row `i <
inputSize`, keeps `X[i][j]` when the draw is below `keepProb = 1 - rate`
and zeroes the entry otherwise (rows at or beyond `inputSize`, which a
well-shaped input does not have, would keep their raw draw).  The random
matrix is modelled as an explicit argument `draw`, supplied by the
training loop from a draw oracle. -/
def dropoutForward (inputSize : ℕ) (rate : ℚ) (X draw : Mat) : Mat :=
  let keepProb := 1 - rate
  Mat.mk' X.rowCount X.colCount fun i j =>
    if i < inputSize then
      if draw.At i j < keepProb then X.At i j else 0
    else draw.At i j

/-! ## Layers (`nn/layers/general.go`) -/

/-- The two implementations of the `Layer` interface. -/
inductive Layer
  | denseL : Dense → Layer
  | dropoutL : ℕ → ℚ → Layer

namespace Layer

/-- `IsTraining()`: `false` for dense, `true` for dropout. -/
def isTraining : Layer → Bool
  | denseL _ => false
  | dropoutL _ _ => true

/-- `InputSize()[0]`. -/
def inputRows : Layer → ℕ
  | denseL d => d.weights.colCount
  | dropoutL n _ => n

/-- `OutputSize()[0]`. -/
def outputRows : Layer → ℕ
  | denseL d => d.weights.rowCount
  | dropoutL n _ => n

/-- `ForwardPropagate`; the `draw` argument is consumed only by dropout. -/
def forwardPropagate (l : Layer) (X : Mat) (draw : Mat) : Option Mat :=
  match l with
  | denseL d => d.ForwardPropagate X
  | dropoutL n r => some (dropoutForward n r X draw)

/-- `BackPropagate(nextLayerPropagation, X, A, parameters)`, returning the
propagated gradient together with the (possibly weight-updated) layer.
Dropout passes the upstream gradient through unchanged and never updates
parameters. -/
def backPropagate (l : Layer) (nextLayerPropagation X A : Mat) (p : NNP) :
    Option (Mat × Layer) :=
  match l with
  | denseL d => (d.BackPropagate nextLayerPropagation X A p).map fun rd =>
      (rd.1, denseL rd.2)
  | dropoutL n r => some (nextLayerPropagation, dropoutL n r)

end Layer

/-! ## The network orchestrator (`nn/neuralnetwork.go`) -/

/-- The `nn` struct: an ordered layer list and a terminal loss. -/
structure Network where
  layers : List Layer
  lossFunction : LossFunction

namespace Network

/-- `InputSize()[0] = layers[0].InputSize()[0]` (Go panics on an empty
network; we return `0`, and every theorem assumes a nonempty layer list). -/
def inputRows (n : Network) : ℕ :=
  match n.layers with
  | [] => 0
  | l :: _ => l.inputRows

/-- `OutputSize()[0] = layers[len-1].OutputSize()[0]`. -/
def outputRows (n : Network) : ℕ :=
  match n.layers.getLast? with
  | some l => l.outputRows
  | none => 0

def withLayers (n : Network) (ls : List Layer) : Network := { n with layers := ls }

/-- `Predict(X)`: forward pass through all layers, skipping any layer whose
`IsTraining()` reports true; a skipped layer consumes no randomness, and
the dense layers ignore the draw argument, so `Predict` needs no oracle. -/
def Predict (n : Network) (X : Mat) : Option Mat :=
  n.layers.foldl
    (fun oy l =>
      if l.isTraining then oy
      else oy.bind fun y => l.forwardPropagate y (Mat.mk []))
    (some X)

/-- The layer-by-layer forward pass of `nn.ForwardPropagate`: returns the
outputs of each layer in order, threading the draw-oracle counter `k`
(one draw consumed per dropout layer). -/
def forwardCacheAux (draws : ℕ → Mat) : List Layer → Mat → ℕ → Option (List Mat × ℕ)
  | [], _, k => some ([], k)
  | l :: rest, X, k =>
    (l.forwardPropagate X (draws k)).bind fun Y =>
    (forwardCacheAux draws rest Y (if l.isTraining then k + 1 else k)).map
      fun ck => (Y :: ck.1, ck.2)

/-- `ForwardPropagate(X)`: the cache slice of size `len(layers)+1` whose
index 0 holds the raw input. -/
def ForwardPropagate (n : Network) (X : Mat) (draws : ℕ → Mat) (k : ℕ) :
    Option (List Mat × ℕ) :=
  (forwardCacheAux draws n.layers X k).map fun ck => (X :: ck.1, ck.2)

/-- The reverse loop of `nn.BackPropagate`: layer `j` receives the clipped
gradient produced by layer `j+1`, consumes `inputCache[j]` and
`inputCache[j+1]`, updates itself, and its own output gradient is clipped
to `[-ClipValue, ClipValue]` in turn.  Returns the updated layers and the
final propagated gradient. -/
def backPropLoop (p : NNP) : List Layer → List Mat → Mat → Option (List Layer × Mat)
  | [], _, prop => some ([], prop)
  | l :: rest, cache, prop =>
    match cache with
    | [] => none
    | c0 :: ctail =>
      (backPropLoop p rest ctail prop).bind fun rp =>
      (l.backPropagate rp.2 c0 (ctail.headD (Mat.mk [])) p).bind fun nl =>
      some (nl.2 :: rp.1, nnClip nl.1 p.ClipValue)

/-- `BackPropagate(Y, inputCache, parameters)`: the initial gradient is the
loss derivative at the output `inputCache[len(layers)]`, then the layers
run in reverse, each weight update happening inside its layer's
`BackPropagate`.  Returns the updated layer list (the Go method mutates
the receiver). -/
def BackPropagate (n : Network) (Y : Mat) (inputCache : List Mat) (p : NNP) :
    Option (List Layer) :=
  let yHat := inputCache.getD n.layers.length (Mat.mk [])
  (n.lossFunction.applyDerivativeMatrix Y yHat).bind fun dL =>
  (backPropLoop p n.layers inputCache dL).map fun lp => lp.1

/-- `ComputeCost(yHat, Y)`: the Go code iterates `column` over
`losses.ColumnCount()` and `row` over `losses.RowCount()` but reads
`losses.At(column, row)` — the indices swapped — and divides the
accumulated value by the column count.  The swap is reproduced verbatim
here (an out-of-range `At` contributes `0`, its error discarded). -/
def ComputeCost (n : Network) (yHat Y : Mat) : Option ℚ :=
  (n.lossFunction.applyMatrix Y yHat).map fun losses =>
    ((List.range losses.colCount).map fun column =>
      ((List.range losses.rowCount).map fun row => losses.At column row).sum).sum
      / (losses.colCount : ℚ)

/-- The per-batch shape check of `validateTrainSamples`: the switch takes
the first failing condition. -/
def batchError (n : Network) (Xb Yb : Mat) : Option String :=
  if Xb.rowCount ≠ n.inputRows then some "invalid input size"
  else if Yb.rowCount ≠ n.outputRows then some "invalid output size"
  else if Xb.colCount ≠ Yb.colCount then some "incosistent sample count"
  else none

/-- `validateTrainSamples(X, Y)`: first error over the batch pairs in
order.  (The Go loop indexes `Y[i]` for `i < len(X)` and panics when `Y`
is shorter; `Train`'s contract supplies lists of equal length, which the
theorems assume.) -/
def validateTrainSamples (n : Network) : List Mat → List Mat → Option String
  | [], _ => none
  | _ :: _, [] => none
  | Xb :: xs, Yb :: ys =>
    match n.batchError Xb Yb with
    | some e => some e
    | none => validateTrainSamples n xs ys

end Network

/-- The divergence test of `nn.Train`:
`math.IsNaN(cost) || math.IsInf(cost, 0) || cost == 0.0`.  The rational
model has no NaN or infinity, leaving the exact-zero branch. -/
def costIsInvalid (c : ℚ) : Bool := c == 0

namespace Network

/-- The first per-epoch loop of `nn.Train`: for every batch, forward
propagate (caching all layer outputs) and back propagate, which updates
the weights. -/
def trainUpdatePhase (draws : ℕ → Mat) (p : NNP) :
    Network → List Mat → List Mat → ℕ → Option (Network × ℕ)
  | n, [], _, k => some (n, k)
  | _, _ :: _, [], _ => none
  | n, Xb :: xs, Yb :: ys, k =>
    (n.ForwardPropagate Xb draws k).bind fun ck =>
    (n.BackPropagate Yb ck.1 p).bind fun ls =>
    trainUpdatePhase draws p (n.withLayers ls) xs ys ck.2

/-- The second per-epoch loop of `nn.Train`: accumulate
`cost += ComputeCost(Predict(X_batch), Y_batch) / len(X)` batch by batch,
aborting with the fatal error string the moment the accumulated cost is
invalid (the accuracy of the offending batch is never added), otherwise
also accumulating the injected accuracy metric. -/
def costPhase (p : NNP) (lenX : ℕ) :
    Network → List Mat → List Mat → ℚ → ℚ → Option (Except String (ℚ × ℚ))
  | _, [], _, cost, acc => some (Except.ok (cost, acc))
  | _, _ :: _, [], _, _ => none
  | n, Xb :: xs, Yb :: ys, cost, acc =>
    (n.Predict Xb).bind fun prediction =>
    (n.ComputeCost prediction Yb).bind fun c =>
    let cost' := cost + c / (lenX : ℚ)
    if costIsInvalid cost' then some (Except.error "cost is an invalid number")
    else
      costPhase p lenX n xs ys cost'
        (acc + p.AccuracyMetric Yb prediction / (lenX : ℚ))

/-- The epoch loop of `nn.Train`: run the update phase, then the
cost/accuracy phase; on divergence return its error at once, otherwise
increment the epoch counter and continue. -/
def epochLoop (draws : ℕ → Mat) (X Y : List Mat) :
    ℕ → Network → NNP → ℕ → Option (Network × NNP × Option String)
  | 0, n, p, _ => some (n, p, none)
  | e + 1, n, p, k =>
    (trainUpdatePhase draws p n X Y k).bind fun nk =>
    (costPhase p X.length nk.1 X Y 0 0).bind fun res =>
    match res with
    | Except.error msg => some (nk.1, p, some msg)
    | Except.ok _ => epochLoop draws X Y e nk.1 p.IncrementEpoch nk.2

/-- `Train(X, Y, parameters)`: validate all batch shapes first, returning
the shape error before any computation; otherwise apply parameter
defaults, reset the epoch counter, run the epochs, and reset the counter
again on normal completion.  The result carries the final network state,
the final state of the by-value parameter copy, and the returned error
(`none` on success).  The `DumpNeuralNetwork` checkpoint writes interleaved
in the Go loop are external file I/O and do not affect the training state,
so they have no counterpart here. -/
def Train (n : Network) (X Y : List Mat) (parameters : NNP) (draws : ℕ → Mat) :
    Option (Network × NNP × Option String) :=
  match n.validateTrainSamples X Y with
  | some err => some (n, parameters, some err)
  | none =>
    let p := parameters.Validate.ResetEpoch
    (epochLoop draws X Y p.EpochCount n p 0).map fun r =>
      match r.2.2 with
      | some msg => (r.1, r.2.1, some msg)
      | none => (r.1, r.2.1.ResetEpoch, none)

end Network

/-! ## The accuracy metric (`metric`, regression variant) -/

/-- `DefaultEpsilon = 1e-5`. -/
def DefaultEpsilon : ℚ := 1/100000

/-- `Accuracy`: compares predictions to labels within `Epsilon`. -/
structure Accuracy where
  Epsilon : ℚ

/-- The per-column goroutine body of `Accuracy.Calculate`: walk the rows
and bail out (not counting the column) as soon as
`math.Abs(yHatV - yTrueV) > precision`. -/
def accColumnOk (yTrue yHat : Mat) (precision : ℚ) (j : ℕ) : List ℕ → Bool
  | [] => true
  | i :: rest =>
    if |yHat.At i j - yTrue.At i j| > precision then false
    else accColumnOk yTrue yHat precision j rest

/-- `Accuracy.Calculate(yTrue, yHat)`: an `Epsilon` of exactly `0.0` is
replaced by `DefaultEpsilon`; one goroutine per column increments the
shared `correct` counter (under the mutex) when every row agrees within
`precision`; the result is `correct / ColumnCount`. -/
def Accuracy.Calculate (a : Accuracy) (yTrue yHat : Mat) : ℚ :=
  let precision := if a.Epsilon = 0 then DefaultEpsilon else a.Epsilon
  let correct := ((List.range yTrue.colCount).filter fun j =>
    accColumnOk yTrue yHat precision j (List.range yTrue.rowCount)).length
  (correct : ℚ) / (yTrue.colCount : ℚ)

/-! ## Reference definitions used only in theorem statements -/

namespace Mat

/-- `m` is an `r × c` matrix whose entry at `(i, j)` is `f i j`. -/
def IsMatOf (m : Mat) (r c : ℕ) (f : ℕ → ℕ → ℚ) : Prop :=
  m.rowCount = r ∧ m.colCount = c ∧ ∀ i, i < r → ∀ j, j < c → m.At i j = f i j

end Mat

/-- A full forward pass through a given layer list with no skipping,
threading the dropout draw oracle; with the dropout layers removed this is
the "forward pass with every Dropout layer removed" of the spec. -/
def forwardAllLayers (draws : ℕ → Mat) : List Layer → Option Mat → ℕ → Option Mat
  | [], oy, _ => oy
  | l :: rest, oy, k =>
    forwardAllLayers draws rest (oy.bind fun y => l.forwardPropagate y (draws k))
      (if l.isTraining then k + 1 else k)

/-- The network with every layer whose `IsTraining()` reports true (i.e.
every Dropout layer) removed. -/
def Network.removeTrainingLayers (n : Network) : Network :=
  n.withLayers (n.layers.filter fun l => !l.isTraining)

/-- Reference description of a prefix of `Train`'s epoch loop: run `e`
full epochs (update phase, then cost phase), requiring every cost phase to
finish without divergence; returns the network, parameter and draw-counter
state reached. -/
def Network.runEpochsOk (draws : ℕ → Mat) (X Y : List Mat) :
    ℕ → Network → NNP → ℕ → Option (Network × NNP × ℕ)
  | 0, n, p, k => some (n, p, k)
  | e + 1, n, p, k =>
    (Network.trainUpdatePhase draws p n X Y k).bind fun nk =>
    (Network.costPhase p X.length nk.1 X Y 0 0).bind fun res =>
    match res with
    | Except.ok _ => Network.runEpochsOk draws X Y e nk.1 p.IncrementEpoch nk.2
    | Except.error _ => none

/-- Reference weight-update-only run with an explicit learning-rate
schedule: starting at epoch index `e`, each successive epoch runs only the
update phase, with the parameter object's epoch counter set explicitly to
that epoch's index (so epoch `e` uses learning rate
`lr0 / (1 + decay * e)`). -/
def Network.scheduledUpdatePhases (draws : ℕ → Mat) (X Y : List Mat) (pbase : NNP) :
    ℕ → ℕ → Network → ℕ → Option (Network × ℕ)
  | _, 0, n, k => some (n, k)
  | e, m + 1, n, k =>
    (Network.trainUpdatePhase draws { pbase with currentEpoch := e } n X Y k).bind
      fun nk => Network.scheduledUpdatePhases draws X Y pbase (e + 1) m nk.1 nk.2

/-! ## Lemmas: the matrix model -/

namespace Mat

/-! Basic lemmas about the matrix model. -/

theorem rowCount_mk' (r c : ℕ) (f : ℕ → ℕ → ℚ) : (mk' r c f).rowCount = r := by
  simp [mk', rowCount]

theorem colCount_mk' (r c : ℕ) (f : ℕ → ℕ → ℚ) (hr : 0 < r) :
    (mk' r c f).colCount = c := by
  unfold mk' colCount
  rcases r with _ | r
  · omega
  · simp [List.range_succ_eq_map]

theorem at_mk' (r c : ℕ) (f : ℕ → ℕ → ℚ) (i j : ℕ) (hi : i < r) (hj : j < c) :
    (mk' r c f).At i j = f i j := by
  have hir : (mk' r c f).inRange i j := by
    constructor
    · rw [rowCount_mk']; exact hi
    · rw [colCount_mk' r c f (Nat.zero_lt_of_lt hi)]; exact hj
  unfold At
  rw [if_pos hir]
  show ((mk' r c f).data.getD i []).getD j 0 = f i j
  unfold mk'
  simp only [List.getD_eq_getElem?_getD, List.getElem?_map, List.getElem?_range hi,
    Option.map_some', Option.getD_some, List.getElem?_range hj]

theorem at_out_of_range (m : Mat) (i j : ℕ) (h : ¬ m.inRange i j) :
    m.At i j = 0 := by
  unfold At; rw [if_neg h]


theorem isMatOf_mk' {r c : ℕ} (f : ℕ → ℕ → ℚ) (hr : 0 < r) :
    IsMatOf (mk' r c f) r c f :=
  ⟨rowCount_mk' r c f, colCount_mk' r c f hr,
    fun i hi j hj => at_mk' r c f i j hi hj⟩

theorem mk'_congr {r c : ℕ} {f g : ℕ → ℕ → ℚ}
    (h : ∀ i, i < r → ∀ j, j < c → f i j = g i j) : mk' r c f = mk' r c g := by
  unfold mk'
  congr 1
  refine List.map_congr_left fun i hi => ?_
  refine List.map_congr_left fun j hj => ?_
  exact h i (List.mem_range.mp hi) j (List.mem_range.mp hj)

theorem IsMatOf.add_spec {m1 m2 : Mat} {r c : ℕ} {f g : ℕ → ℕ → ℚ}
    (h1 : IsMatOf m1 r c f) (h2 : IsMatOf m2 r c g) (hr : 0 < r) :
    m1.add m2 = some (mk' r c fun i j => f i j + g i j) ∧
      IsMatOf (mk' r c fun i j => f i j + g i j) r c (fun i j => f i j + g i j) := by
  obtain ⟨e1r, e1c, e1⟩ := h1
  obtain ⟨e2r, e2c, e2⟩ := h2
  have hsame : m1.areSameSize m2 := ⟨by rw [e1r, e2r], by rw [e1c, e2c]⟩
  refine ⟨?_, isMatOf_mk' _ hr⟩
  unfold Mat.add
  rw [if_pos hsame, e1r, e1c]
  congr 1
  exact mk'_congr fun i hi j hj => by rw [e1 i hi j hj, e2 i hi j hj]

theorem IsMatOf.multiply_spec {m1 m2 : Mat} {r s c : ℕ} {f g : ℕ → ℕ → ℚ}
    (h1 : IsMatOf m1 r s f) (h2 : IsMatOf m2 s c g) (hr : 0 < r) :
    m1.multiply m2 =
      some (mk' r c fun i j => ((List.range s).map fun t => f i t * g t j).sum) ∧
      IsMatOf (mk' r c fun i j => ((List.range s).map fun t => f i t * g t j).sum)
        r c (fun i j => ((List.range s).map fun t => f i t * g t j).sum) := by
  obtain ⟨e1r, e1c, e1⟩ := h1
  obtain ⟨e2r, e2c, e2⟩ := h2
  have hconf : m1.colCount = m2.rowCount := by rw [e1c, e2r]
  refine ⟨?_, isMatOf_mk' _ hr⟩
  unfold Mat.multiply
  rw [if_pos hconf, e1r, e2c, e1c]
  congr 1
  refine mk'_congr fun i hi j hj => ?_
  congr 1
  refine List.map_congr_left fun t ht => ?_
  rw [e1 i hi t (List.mem_range.mp ht), e2 t (List.mem_range.mp ht) j hj]

theorem IsMatOf.multiplyByScalar_spec {m : Mat} {r c : ℕ} {f : ℕ → ℕ → ℚ}
    (h : IsMatOf m r c f) (hr : 0 < r) (k : ℚ) :
    m.multiplyByScalar k = mk' r c (fun i j => f i j * k) ∧
      IsMatOf (mk' r c fun i j => f i j * k) r c (fun i j => f i j * k) := by
  obtain ⟨er, ec, e⟩ := h
  refine ⟨?_, isMatOf_mk' _ hr⟩
  unfold Mat.multiplyByScalar
  rw [er, ec]
  exact mk'_congr fun i hi j hj => by rw [e i hi j hj]

theorem IsMatOf.multiplyElementwise_spec {m1 m2 : Mat} {r c : ℕ} {f g : ℕ → ℕ → ℚ}
    (h1 : IsMatOf m1 r c f) (h2 : IsMatOf m2 r c g) (hr : 0 < r) :
    m1.multiplyElementwise m2 = some (mk' r c fun i j => f i j * g i j) ∧
      IsMatOf (mk' r c fun i j => f i j * g i j) r c (fun i j => f i j * g i j) := by
  obtain ⟨e1r, e1c, e1⟩ := h1
  obtain ⟨e2r, e2c, e2⟩ := h2
  have hsame : m1.areSameSize m2 := ⟨by rw [e1r, e2r], by rw [e1c, e2c]⟩
  refine ⟨?_, isMatOf_mk' _ hr⟩
  unfold Mat.multiplyElementwise
  rw [if_pos hsame, e1r, e1c]
  congr 1
  exact mk'_congr fun i hi j hj => by rw [e1 i hi j hj, e2 i hi j hj]

theorem IsMatOf.transpose_spec {m : Mat} {r c : ℕ} {f : ℕ → ℕ → ℚ}
    (h : IsMatOf m r c f) (hc : 0 < c) :
    m.transpose = mk' c r (fun i j => f j i) ∧
      IsMatOf (mk' c r fun i j => f j i) c r (fun i j => f j i) := by
  obtain ⟨er, ec, e⟩ := h
  refine ⟨?_, isMatOf_mk' _ hc⟩
  unfold Mat.transpose
  rw [er, ec]
  exact mk'_congr fun i hi j hj => by rw [e j hj i hi]

theorem IsMatOf.deepCopy_spec {m : Mat} {r c : ℕ} {f : ℕ → ℕ → ℚ}
    (h : IsMatOf m r c f) (hr : 0 < r) :
    m.deepCopy = mk' r c f ∧ IsMatOf (mk' r c f) r c f := by
  obtain ⟨er, ec, e⟩ := h
  refine ⟨?_, isMatOf_mk' _ hr⟩
  unfold Mat.deepCopy
  rw [er, ec]
  exact mk'_congr fun i hi j hj => e i hi j hj

theorem IsMatOf.applyByElement_spec {m : Mat} {r c : ℕ} {f : ℕ → ℕ → ℚ}
    (h : IsMatOf m r c f) (hr : 0 < r) (g : ℚ → ℚ) :
    applyByElement g m = mk' r c (fun i j => g (f i j)) ∧
      IsMatOf (mk' r c fun i j => g (f i j)) r c (fun i j => g (f i j)) := by
  obtain ⟨er, ec, e⟩ := h
  refine ⟨?_, isMatOf_mk' _ hr⟩
  unfold Mat.applyByElement
  rw [er, ec]
  exact mk'_congr fun i hi j hj => by rw [e i hi j hj]

theorem IsMatOf.clip_spec {m : Mat} {r c : ℕ} {f : ℕ → ℕ → ℚ}
    (h : IsMatOf m r c f) (hr : 0 < r) (lo hi : ℚ) :
    m.clip lo hi =
      mk' r c (fun i j => if f i j < lo then lo else if f i j > hi then hi else f i j) ∧
      IsMatOf
        (mk' r c fun i j => if f i j < lo then lo else if f i j > hi then hi else f i j)
        r c (fun i j => if f i j < lo then lo else if f i j > hi then hi else f i j) := by
  obtain ⟨er, ec, e⟩ := h
  refine ⟨?_, isMatOf_mk' _ hr⟩
  unfold Mat.clip
  rw [er, ec]
  exact mk'_congr fun i hi' j hj => by simp only [e i hi' j hj]

theorem isMatOf_newOnesMatrix {r c : ℕ} (hr : 0 < r) :
    IsMatOf (newOnesMatrix r c) r c fun _ _ => 1 :=
  isMatOf_mk' _ hr

theorem IsMatOf.congr {m : Mat} {r c : ℕ} {f g : ℕ → ℕ → ℚ}
    (h : IsMatOf m r c f) (e : ∀ i, i < r → ∀ j, j < c → f i j = g i j) :
    IsMatOf m r c g :=
  ⟨h.1, h.2.1, fun i hi j hj => (h.2.2 i hi j hj).trans (e i hi j hj)⟩

end Mat

/-- Entrywise characterization of `dense.updateWeights` on conformable
inputs: with weights `W : r × c`, bias `b : r × 1`, local gradient
`dZ : r × N` and cached input `X : c × N`, the update succeeds, keeps the
activation, and combines the gradients, the weight decay and the (decayed)
learning rate exactly as the chain of matrix calls in the source does. -/
theorem updateWeights_spec {d : Dense} {dZ X : Mat} {p : NNP} {r c N : ℕ}
    {w b z x : ℕ → ℕ → ℚ}
    (hW : d.weights.IsMatOf r c w) (hb : d.bias.IsMatOf r 1 b)
    (hz : dZ.IsMatOf r N z) (hx : X.IsMatOf c N x)
    (hr : 0 < r) (hN : 0 < N) :
    ∃ d', d.updateWeights dZ X p = some d' ∧ d'.activation = d.activation ∧
      d'.weights.IsMatOf r c (fun i j =>
        w i j + (((List.range N).map fun t => z i t * x j t).sum * (1/(N:ℚ))
          + w i j * p.WeightDecay) * (-p.LearningRate)) ∧
      d'.bias.IsMatOf r 1 (fun i j =>
        b i j + (((List.range N).map fun t => z i t * 1).sum * (1/(N:ℚ))
          + b i j * p.WeightDecay) * (-p.LearningRate)) := by
  have hones := Mat.isMatOf_newOnesMatrix (r := N) (c := 1) hN
  obtain ⟨edb, hdb⟩ := Mat.IsMatOf.multiply_spec hz hones hr
  obtain ⟨eXt, hXt⟩ := Mat.IsMatOf.transpose_spec hx hN
  obtain ⟨edW, hdW⟩ := Mat.IsMatOf.multiply_spec hz hXt hr
  obtain ⟨edWs, hdWs⟩ := Mat.IsMatOf.multiplyByScalar_spec hdW hr (1/(N:ℚ))
  obtain ⟨eWwd, hWwd⟩ := Mat.IsMatOf.multiplyByScalar_spec hW hr p.WeightDecay
  obtain ⟨edecW, hdecW⟩ := Mat.IsMatOf.add_spec hdWs hWwd hr
  obtain ⟨edecWs, hdecWs⟩ :=
    Mat.IsMatOf.multiplyByScalar_spec hdecW hr (-p.LearningRate)
  obtain ⟨eW', hW'⟩ := Mat.IsMatOf.add_spec hW hdecWs hr
  obtain ⟨edbs, hdbs⟩ := Mat.IsMatOf.multiplyByScalar_spec hdb hr (1/(N:ℚ))
  obtain ⟨ebwd, hbwd⟩ := Mat.IsMatOf.multiplyByScalar_spec hb hr p.WeightDecay
  obtain ⟨edecb, hdecb⟩ := Mat.IsMatOf.add_spec hdbs hbwd hr
  obtain ⟨edecbs, hdecbs⟩ :=
    Mat.IsMatOf.multiplyByScalar_spec hdecb hr (-p.LearningRate)
  obtain ⟨eb', hb'⟩ := Mat.IsMatOf.add_spec hb hdecbs hr
  refine ⟨⟨Mat.mk' r c fun i j =>
      w i j + (((List.range N).map fun t => z i t * x j t).sum * (1/(N:ℚ))
        + w i j * p.WeightDecay) * (-p.LearningRate),
    Mat.mk' r 1 fun i j =>
      b i j + (((List.range N).map fun t => z i t * 1).sum * (1/(N:ℚ))
        + b i j * p.WeightDecay) * (-p.LearningRate),
    d.activation⟩, ?_, rfl, hW', hb'⟩
  unfold Dense.updateWeights
  simp only [hx.2.1, edb, Option.some_bind, eXt, edW, edWs, eWwd, edecW,
    edecWs, eW', edbs, ebwd, edecb, edecbs, eb', Option.map_some']


/-! ## Lemmas: loss functions -/

/-- Entrywise characterization of the label-smoothing
`CategoricalCrossEntropyLoss.ApplyMatrix`: a `1 × N` row whose column `j`
holds the sample's cost summed over the `n` output rows. -/
theorem cceLoss_applyMatrix_spec (rlog : ℚ → ℚ) (l : CCELoss)
    {y yHat : Mat} {n N : ℕ} {yf yhf : ℕ → ℕ → ℚ}
    (hy : y.IsMatOf n N yf) (hyh : yHat.IsMatOf n N yhf) :
    (l.ApplyMatrix rlog y yHat).IsMatOf 1 N fun _ j =>
      ((List.range n).map fun i => -(yf i j) * rlog (yhf i j)).sum := by
  unfold CCELoss.ApplyMatrix
  rw [hy.1, hy.2.1]
  refine (Mat.isMatOf_mk' _ Nat.one_pos).congr fun i hi j hj => ?_
  congr 1
  refine List.map_congr_left fun t ht => ?_
  rw [hy.2.2 t (List.mem_range.mp ht) j hj, hyh.2.2 t (List.mem_range.mp ht) j hj]

/-- C2 (amended).  `SquareLoss.ApplyMatrix` and `LogLoss.ApplyMatrix`
return a matrix of the same `n × N` shape as the label/prediction pair,
holding the per-element cost with no summation over rows;
`CategoricalCrossEntropyLoss.ApplyMatrix` (and `CCELossWithSoftmax`, which
inherits it unchanged) returns a `1 × N` row vector whose column `j` is
that sample's total cost summed over the `n` output rows. -/
theorem loss_applyMatrix_shapes (rlog : ℚ → ℚ) (l : CCELoss) (ls : CCELossWithSoftmax)
    {y yHat : Mat} {n N : ℕ} {yf yhf : ℕ → ℕ → ℚ}
    (hy : y.IsMatOf n N yf) (hyh : yHat.IsMatOf n N yhf)
    (hn : 0 < n) (hN : 0 < N) :
    (∃ m, SquareLoss.ApplyMatrix ⟨⟩ y yHat = some m ∧
      m.IsMatOf n N fun i j => (yf i j - yhf i j) * (yf i j - yhf i j) / 2) ∧
    (∃ m, LogLoss.ApplyMatrix rlog ⟨⟩ y yHat = some m ∧
      m.IsMatOf n N fun i j =>
        -(yf i j * rlog (yhf i j)) - (1 - yf i j) * rlog (1 - yhf i j)) ∧
    ((l.ApplyMatrix rlog y yHat).IsMatOf 1 N fun _ j =>
      ((List.range n).map fun i => -(yf i j) * rlog (yhf i j)).sum) ∧
    ls.ApplyMatrix rlog y yHat = ls.toCCELoss.ApplyMatrix rlog y yHat := by
  refine ⟨?_, ?_, cceLoss_applyMatrix_spec rlog l hy hyh, rfl⟩
  · obtain ⟨es, hs⟩ := Mat.IsMatOf.multiplyByScalar_spec hyh hn (-1)
    obtain ⟨ea, ha⟩ := Mat.IsMatOf.add_spec hy hs hn
    obtain ⟨ee, he⟩ := Mat.IsMatOf.applyByElement_spec ha hn (fun t => t * t / 2)
    refine ⟨_, ?_, he.congr fun i hi j hj => by ring⟩
    unfold SquareLoss.ApplyMatrix
    rw [es, ea, Option.map_some', ee]
  · obtain ⟨ecp, hcp⟩ := Mat.IsMatOf.deepCopy_spec hyh hn
    obtain ⟨eln, hln⟩ := Mat.IsMatOf.applyByElement_spec hcp hn (fun t => rlog t)
    obtain ⟨eln1, hln1⟩ := Mat.IsMatOf.applyByElement_spec hcp hn (fun t => rlog (1 - t))
    obtain ⟨ep1, hp1⟩ := Mat.IsMatOf.multiplyElementwise_spec hy hln hn
    obtain ⟨ecpy, hcpy⟩ := Mat.IsMatOf.deepCopy_spec hy hn
    obtain ⟨e1y, h1y⟩ := Mat.IsMatOf.applyByElement_spec hcpy hn (fun t => 1 - t)
    obtain ⟨ep2, hp2⟩ := Mat.IsMatOf.multiplyElementwise_spec h1y hln1 hn
    obtain ⟨eadd, hadd⟩ := Mat.IsMatOf.add_spec hp1 hp2 hn
    obtain ⟨ems, hms⟩ := Mat.IsMatOf.multiplyByScalar_spec hadd hn (-1)
    refine ⟨_, ?_, hms.congr fun i hi j hj => by ring⟩
    unfold LogLoss.ApplyMatrix
    simp only [ecp, eln, eln1, ep1, Option.some_bind, ecpy, e1y, ep2, eadd,
      Option.map_some', ems]

/-- C2 counterexample: for the `SquareLoss` variant on a `2 × 1`
label/prediction pair, `ApplyMatrix` returns a `2 × 1` matrix of
per-element costs — not a `1 × 1` row vector holding the sample's summed
cost — so the claim fails for the `SquareLoss` (and `LogLoss`) variants. -/
theorem squareLoss_applyMatrix_not_row_vector_cex :
    SquareLoss.ApplyMatrix ⟨⟩ ⟨[[0], [0]]⟩ ⟨[[1], [1]]⟩ =
      some ⟨[[1/2], [1/2]]⟩ ∧
    (Mat.mk [[1/2], [1/2]]).rowCount = 2 ∧ (2 : ℕ) ≠ 1 := by
  refine ⟨?_, by decide, by decide⟩
  norm_num [SquareLoss.ApplyMatrix, Mat.add, Mat.multiplyByScalar,
    Mat.applyByElement, Mat.mk', Mat.areSameSize, Mat.rowCount, Mat.colCount,
    Mat.At, Mat.inRange, List.range_succ]

/-- C2 witness: the hypotheses of `loss_applyMatrix_shapes` hold at a
concrete `2 × 2` pair, and the `SquareLoss` conclusion follows. -/
theorem loss_applyMatrix_shapes_witness :
    (Mat.mk [[1, 0], [0, 1]]).IsMatOf 2 2
        (fun i j => (Mat.mk [[(1:ℚ), 0], [0, 1]]).At i j) ∧
    (∃ m, SquareLoss.ApplyMatrix ⟨⟩ ⟨[[1, 0], [0, 1]]⟩ ⟨[[1/2, 1/4], [1/2, 3/4]]⟩ =
        some m ∧
      m.IsMatOf 2 2 fun i j =>
        ((Mat.mk [[(1:ℚ), 0], [0, 1]]).At i j -
            (Mat.mk [[(1:ℚ)/2, 1/4], [1/2, 3/4]]).At i j) *
          ((Mat.mk [[(1:ℚ), 0], [0, 1]]).At i j -
            (Mat.mk [[(1:ℚ)/2, 1/4], [1/2, 3/4]]).At i j) / 2) :=
  ⟨⟨rfl, rfl, fun _ _ _ _ => rfl⟩,
    (@loss_applyMatrix_shapes (fun q => q) ⟨0⟩ ⟨⟨0⟩⟩
      ⟨[[1, 0], [0, 1]]⟩ ⟨[[1/2, 1/4], [1/2, 3/4]]⟩ 2 2
      (fun i j => (Mat.mk [[(1:ℚ), 0], [0, 1]]).At i j)
      (fun i j => (Mat.mk [[(1:ℚ)/2, 1/4], [1/2, 3/4]]).At i j)
      ⟨rfl, rfl, fun _ _ _ _ => rfl⟩ ⟨rfl, rfl, fun _ _ _ _ => rfl⟩
      (by decide) (by decide)).1⟩

/-- C8 (amended).  The earlier revision of
`CCELossWithSoftmax.ApplyDerivativeMatrix` returns exactly
`prediction - label`; the label-smoothing revision returns
`prediction - Clip(label, clip/N, 1-clip)`, which agrees with
`prediction - label` exactly when every label entry already lies inside
`[clip/N, 1-clip]` (in particular for one-hot labels when the
smoothing clip is 0).  Both revisions reuse
`CategoricalCrossEntropyLoss`'s forward cost unchanged. -/
theorem cceWithSoftmax_derivative_pred_minus_label (rlog : ℚ → ℚ)
    (ls : CCELossWithSoftmax) {y yHat : Mat} {n N : ℕ} {yf yhf : ℕ → ℕ → ℚ}
    (hy : y.IsMatOf n N yf) (hyh : yHat.IsMatOf n N yhf)
    (hn : 0 < n) (hN : 0 < N)
    (hclip : ∀ i, i < n → ∀ j, j < N →
      ls.toCCELoss.LabelSmoothingClip / (N : ℚ) ≤ yf i j ∧
        yf i j ≤ 1 - ls.toCCELoss.LabelSmoothingClip) :
    (∃ m, CCELossWithSoftmaxV1.ApplyDerivativeMatrix y yHat = some m ∧
      m.IsMatOf n N fun i j => yhf i j - yf i j) ∧
    (∃ m, ls.ApplyDerivativeMatrix y yHat = some m ∧
      m.IsMatOf n N fun i j => yhf i j - yf i j) ∧
    ls.ApplyMatrix rlog y yHat = ls.toCCELoss.ApplyMatrix rlog y yHat := by
  refine ⟨?_, ?_, rfl⟩
  · obtain ⟨es, hs⟩ := Mat.IsMatOf.multiplyByScalar_spec hy hn (-1)
    obtain ⟨ea, ha⟩ := Mat.IsMatOf.add_spec hyh hs hn
    refine ⟨_, ?_, ha.congr fun i hi j hj => by ring⟩
    unfold CCELossWithSoftmaxV1.ApplyDerivativeMatrix
    rw [es, ea]
  · obtain ⟨ec, hc⟩ := Mat.IsMatOf.clip_spec hy hn
      (ls.toCCELoss.LabelSmoothingClip / (N : ℚ))
      (1 - ls.toCCELoss.LabelSmoothingClip)
    have hcy : Mat.IsMatOf _ n N yf := hc.congr fun i hi j hj => by
      obtain ⟨hlo, hhi⟩ := hclip i hi j hj
      rw [if_neg (by exact not_lt.mpr hlo), if_neg (by exact not_lt.mpr hhi)]
    obtain ⟨es, hs⟩ := Mat.IsMatOf.multiplyByScalar_spec hcy hn (-1)
    obtain ⟨ea, ha⟩ := Mat.IsMatOf.add_spec hyh hs hn
    refine ⟨_, ?_, ha.congr fun i hi j hj => by ring⟩
    unfold CCELossWithSoftmax.ApplyDerivativeMatrix
    simp only [hy.2.1, ec, es, ea]

/-- C8 counterexample: with a label-smoothing clip of `1/10`, label `[[1]]`
and prediction `[[1/2]]`, the current `CCELossWithSoftmax` derivative is
`[[-2/5]]` (prediction minus the *clipped* label `9/10`), not
`prediction - label = [[-1/2]]`. -/
theorem cceWithSoftmax_label_smoothing_cex :
    CCELossWithSoftmax.ApplyDerivativeMatrix ⟨⟨1/10⟩⟩ ⟨[[1]]⟩ ⟨[[1/2]]⟩ =
      some ⟨[[-2/5]]⟩ ∧
    (Mat.mk [[(1:ℚ)/2]]).add ((Mat.mk [[(1:ℚ)]]).multiplyByScalar (-1)) =
      some ⟨[[-1/2]]⟩ ∧
    (Mat.mk [[(-2:ℚ)/5]]) ≠ ⟨[[-1/2]]⟩ := by
  refine ⟨?_, ?_, ?_⟩
  · norm_num [CCELossWithSoftmax.ApplyDerivativeMatrix, Mat.clip, Mat.add,
      Mat.multiplyByScalar, Mat.mk', Mat.areSameSize, Mat.rowCount,
      Mat.colCount, Mat.At, Mat.inRange, List.range_succ]
  · norm_num [Mat.add, Mat.multiplyByScalar, Mat.mk', Mat.areSameSize,
      Mat.rowCount, Mat.colCount, Mat.At, Mat.inRange, List.range_succ]
  · norm_num [Mat.mk.injEq]

/-- C8 witness: at a one-hot `2 × 1` label with smoothing clip `0`, the
hypotheses of `cceWithSoftmax_derivative_pred_minus_label` hold and the
label-smoothing revision does return `prediction - label`. -/
theorem cceWithSoftmax_derivative_witness :
    (0 : ℕ) < 2 ∧
    (∃ m, CCELossWithSoftmax.ApplyDerivativeMatrix ⟨⟨0⟩⟩ ⟨[[1], [0]]⟩
        ⟨[[3/4], [1/4]]⟩ = some m ∧
      m.IsMatOf 2 1 fun i j =>
        (Mat.mk [[(3:ℚ)/4], [1/4]]).At i j - (Mat.mk [[(1:ℚ)], [0]]).At i j) :=
  ⟨by decide,
    (@cceWithSoftmax_derivative_pred_minus_label (fun q => q) ⟨⟨0⟩⟩
      ⟨[[1], [0]]⟩ ⟨[[3/4], [1/4]]⟩ 2 1
      (fun i j => (Mat.mk [[(1:ℚ)], [0]]).At i j)
      (fun i j => (Mat.mk [[(3:ℚ)/4], [1/4]]).At i j)
      ⟨rfl, rfl, fun _ _ _ _ => rfl⟩ ⟨rfl, rfl, fun _ _ _ _ => rfl⟩
      (by decide) (by decide)
      (by
        intro i hi j hj
        interval_cases i <;> interval_cases j <;> constructor <;>
          norm_num [Mat.At, Mat.inRange, Mat.rowCount, Mat.colCount])).2.1⟩

/-- C3 (code bug).  `nn.ComputeCost` reads `losses.At(column, row)` with
its indices swapped, so for the `1 × N` loss row `[[2, 8]]` produced by
`SquareLoss` on labels `[[0, 0]]` and predictions `[[2, 4]]` only the
first sample's cost is accumulated (every other read is out of range and
contributes `0`): the code returns `2/2 = 1`, while the sum of all entries
divided by the column count — what the claim states — is `(2+8)/2 = 5`. -/
theorem computeCost_index_swap_bug :
    squareLossF.applyMatrix ⟨[[0, 0]]⟩ ⟨[[2, 4]]⟩ = some ⟨[[2, 8]]⟩ ∧
    Network.ComputeCost ⟨[], squareLossF⟩ ⟨[[2, 4]]⟩ ⟨[[0, 0]]⟩ = some 1 ∧
    ((2 : ℚ) + 8) / 2 = 5 ∧ (1 : ℚ) ≠ 5 := by
  refine ⟨?_, ?_, by norm_num, by norm_num⟩
  · norm_num [squareLossF, SquareLoss.ApplyMatrix, Mat.add, Mat.multiplyByScalar,
      Mat.applyByElement, Mat.mk', Mat.areSameSize, Mat.rowCount, Mat.colCount,
      Mat.At, Mat.inRange, List.range_succ]
  · norm_num [Network.ComputeCost, squareLossF, SquareLoss.ApplyMatrix, Mat.add,
      Mat.multiplyByScalar, Mat.applyByElement, Mat.mk', Mat.areSameSize,
      Mat.rowCount, Mat.colCount, Mat.At, Mat.inRange, List.range_succ]

/-! ## Lemmas: the Dense layer -/

/-- C4.  On conformable inputs (`W : r × c`, `b : r × 1`, `dZ : r × N`,
cached input `X : c × N` with `N` the batch size), `dense.updateWeights`
sets `W` to `W - lr·((dZ·Xᵗ)/N + weightDecay·W)` and `b` to
`b - lr·((dZ·ones(N,1))/N + weightDecay·b)`, where `lr` is the parameter
object's current decayed learning rate
`lr0 / (1 + decay·currentEpoch)`. -/
theorem dense_updateWeights_formula {d : Dense} {dZ X : Mat} {p : NNP}
    {r c N : ℕ} {w b z x : ℕ → ℕ → ℚ}
    (hW : d.weights.IsMatOf r c w) (hb : d.bias.IsMatOf r 1 b)
    (hz : dZ.IsMatOf r N z) (hx : X.IsMatOf c N x)
    (hr : 0 < r) (hN : 0 < N) :
    ∃ d', d.updateWeights dZ X p = some d' ∧ d'.activation = d.activation ∧
      d'.weights.IsMatOf r c (fun i j =>
        w i j - p.LearningRate *
          (((List.range N).map fun t => z i t * x j t).sum / (N : ℚ)
            + p.WeightDecay * w i j)) ∧
      d'.bias.IsMatOf r 1 (fun i j =>
        b i j - p.LearningRate *
          (((List.range N).map fun t => z i t).sum / (N : ℚ)
            + p.WeightDecay * b i j)) ∧
      p.LearningRate =
        p.InitialLearningRate / (1 + p.LearningRateDecay * (p.currentEpoch : ℚ)) := by
  obtain ⟨d', e, ha, hw', hb'⟩ := updateWeights_spec hW hb hz hx hr hN
  refine ⟨d', e, ha, hw'.congr fun i hi j hj => by ring, ?_, rfl⟩
  refine hb'.congr fun i hi j hj => ?_
  have hmap : ((List.range N).map fun t => z i t * 1) =
      (List.range N).map fun t => z i t :=
    List.map_congr_left fun t _ => mul_one _
  rw [hmap]; ring

/-- C4 witness: the hypotheses hold at a concrete `1 × 1` layer and the
update succeeds with the stated weight formula. -/
theorem dense_updateWeights_formula_witness :
    (0 : ℕ) < 1 ∧
    ∃ d', Dense.updateWeights ⟨⟨[[1]]⟩, ⟨[[0]]⟩, linearActivation⟩ ⟨[[1]]⟩ ⟨[[1]]⟩
        ⟨0, 1, 0, 1, 0, some 1000, fun _ _ => 0⟩ = some d' ∧
      d'.activation = linearActivation :=
  ⟨by decide,
    (@dense_updateWeights_formula ⟨⟨[[1]]⟩, ⟨[[0]]⟩, linearActivation⟩
        ⟨[[1]]⟩ ⟨[[1]]⟩ ⟨0, 1, 0, 1, 0, some 1000, fun _ _ => 0⟩ 1 1 1
        (fun i j => (Mat.mk [[(1:ℚ)]]).At i j)
        (fun i j => (Mat.mk [[(0:ℚ)]]).At i j)
        (fun i j => (Mat.mk [[(1:ℚ)]]).At i j)
        (fun i j => (Mat.mk [[(1:ℚ)]]).At i j)
        ⟨rfl, rfl, fun _ _ _ _ => rfl⟩ ⟨rfl, rfl, fun _ _ _ _ => rfl⟩
        ⟨rfl, rfl, fun _ _ _ _ => rfl⟩ ⟨rfl, rfl, fun _ _ _ _ => rfl⟩
        (by decide) (by decide)).imp fun d' h => ⟨h.1, h.2.1⟩⟩

/-- C1 counterexample: a `1 × 1` Dense layer with weight `[[1]]`, bias
`[[0]]`, Sigmoid activation, cached input `[[1]]`, cached output `[[1/2]]`
and upstream gradient `[[1]]`, under learning rate `1` (no decay, no
weight decay).  Then `dZ = [[1/4]]` and `W_old^T · dZ = [[1/4]]`, but
`BackPropagate` updates the weight to `[[3/4]]` first and returns
`[[3/16]] = W_new^T · dZ ≠ [[1/4]]`. -/
theorem dense_backPropagate_not_old_weights_cex :
    ((Mat.mk [[1]]).multiplyElementwise
        ((sigmoidActivation fun _ => 0).backPropagateMatrix
          (Mat.mk [[1/2]]).deepCopy) = some ⟨[[1/4]]⟩) ∧
    ((Mat.mk [[(1:ℚ)]]).transpose.multiply ⟨[[1/4]]⟩ = some ⟨[[1/4]]⟩) ∧
    ((Dense.BackPropagate ⟨⟨[[1]]⟩, ⟨[[0]]⟩, sigmoidActivation fun _ => 0⟩
        ⟨[[1]]⟩ ⟨[[1]]⟩ ⟨[[1/2]]⟩ ⟨0, 1, 0, 1, 0, some 1000, fun _ _ => 0⟩).map
        Prod.fst = some ⟨[[3/16]]⟩) ∧
    (Mat.mk [[(3:ℚ)/16]]) ≠ ⟨[[1/4]]⟩ := by
  refine ⟨?_, ?_, ?_, ?_⟩
  · norm_num [sigmoidActivation, Mat.multiplyElementwise, Mat.deepCopy,
      Mat.applyByElement, Mat.mk', Mat.areSameSize, Mat.rowCount, Mat.colCount,
      Mat.At, Mat.inRange, List.range_succ]
  · norm_num [Mat.transpose, Mat.multiply, Mat.mk', Mat.rowCount, Mat.colCount,
      Mat.At, Mat.inRange, List.range_succ]
  · norm_num [Dense.BackPropagate, Dense.updateWeights, sigmoidActivation,
      NNP.LearningRate, Mat.multiplyElementwise, Mat.deepCopy, Mat.transpose,
      Mat.multiply, Mat.add, Mat.multiplyByScalar, Mat.applyByElement,
      Mat.newOnesMatrix, Mat.mk', Mat.areSameSize, Mat.rowCount, Mat.colCount,
      Mat.At, Mat.inRange, List.range_succ]
  · norm_num [Mat.mk.injEq]

/-- C1 (amended).  On conformable inputs, `dense.BackPropagate` computes
`dZ` as the elementwise product of the upstream gradient and the
activation derivative of the deep-copied cached output, performs the
layer's weight update on it, and returns `W_new^T · dZ`, where `W_new` is
the weight matrix *after* that call's own weight update (not the weight
matrix as it stood when the call began). -/
theorem dense_backPropagate_updated_weights {d : Dense} {G X A : Mat} {p : NNP}
    {r c N : ℕ} {w b g x df : ℕ → ℕ → ℚ}
    (hW : d.weights.IsMatOf r c w) (hb : d.bias.IsMatOf r 1 b)
    (hG : G.IsMatOf r N g) (hx : X.IsMatOf c N x)
    (hAct : (d.activation.backPropagateMatrix A.deepCopy).IsMatOf r N df)
    (hr : 0 < r) (hc : 0 < c) (hN : 0 < N) :
    ∃ res d',
      d.BackPropagate G X A p = some (res, d') ∧
      d.updateWeights (Mat.mk' r N fun i j => g i j * df i j) X p = some d' ∧
      d'.weights.IsMatOf r c (fun i j =>
        w i j - p.LearningRate *
          (((List.range N).map fun t => g i t * df i t * x j t).sum / (N : ℚ)
            + p.WeightDecay * w i j)) ∧
      res.IsMatOf c N (fun i j =>
        ((List.range r).map fun t =>
          (w t i - p.LearningRate *
            (((List.range N).map fun u => g t u * df t u * x i u).sum / (N : ℚ)
              + p.WeightDecay * w t i)) * (g t j * df t j)).sum) := by
  obtain ⟨edZ, hdZ⟩ := Mat.IsMatOf.multiplyElementwise_spec hG hAct hr
  obtain ⟨d', eupd, hact, hwOp, hbOp⟩ := updateWeights_spec hW hb hdZ hx hr hN
  have hwC : d'.weights.IsMatOf r c (fun i j =>
      w i j - p.LearningRate *
        (((List.range N).map fun t => g i t * df i t * x j t).sum / (N : ℚ)
          + p.WeightDecay * w i j)) :=
    hwOp.congr fun i hi j hj => by ring
  obtain ⟨eT, hT⟩ := Mat.IsMatOf.transpose_spec hwC hc
  obtain ⟨emul, hmul⟩ := Mat.IsMatOf.multiply_spec hT hdZ hc
  refine ⟨_, d', ?_, eupd, hwC, hmul⟩
  unfold Dense.BackPropagate
  simp only [edZ, Option.some_bind, eupd, eT, emul, Option.map_some']

/-- C1 witness: the hypotheses of the amended theorem hold at the
counterexample's concrete layer, and the call succeeds with the weight
update applied. -/
theorem dense_backPropagate_updated_weights_witness :
    (0 : ℕ) < 1 ∧
    ∃ res d',
      Dense.BackPropagate ⟨⟨[[1]]⟩, ⟨[[0]]⟩, sigmoidActivation fun _ => 0⟩
        ⟨[[1]]⟩ ⟨[[1]]⟩ ⟨[[1/2]]⟩ ⟨0, 1, 0, 1, 0, some 1000, fun _ _ => 0⟩ =
          some (res, d') ∧
      Dense.updateWeights ⟨⟨[[1]]⟩, ⟨[[0]]⟩, sigmoidActivation fun _ => 0⟩
        (Mat.mk' 1 1 fun i j =>
          (Mat.mk [[(1:ℚ)]]).At i j *
            ((sigmoidActivation fun _ => 0).backPropagateMatrix
              (Mat.mk [[(1:ℚ)/2]]).deepCopy).At i j)
        ⟨[[1]]⟩ ⟨0, 1, 0, 1, 0, some 1000, fun _ _ => 0⟩ = some d' :=
  ⟨by decide,
    (@dense_backPropagate_updated_weights
        ⟨⟨[[1]]⟩, ⟨[[0]]⟩, sigmoidActivation fun _ => 0⟩
        ⟨[[1]]⟩ ⟨[[1]]⟩ ⟨[[1/2]]⟩ ⟨0, 1, 0, 1, 0, some 1000, fun _ _ => 0⟩ 1 1 1
        (fun i j => (Mat.mk [[(1:ℚ)]]).At i j)
        (fun i j => (Mat.mk [[(0:ℚ)]]).At i j)
        (fun i j => (Mat.mk [[(1:ℚ)]]).At i j)
        (fun i j => (Mat.mk [[(1:ℚ)]]).At i j)
        (fun i j => ((sigmoidActivation fun _ => 0).backPropagateMatrix
          (Mat.mk [[(1:ℚ)/2]]).deepCopy).At i j)
        ⟨rfl, rfl, fun _ _ _ _ => rfl⟩ ⟨rfl, rfl, fun _ _ _ _ => rfl⟩
        ⟨rfl, rfl, fun _ _ _ _ => rfl⟩ ⟨rfl, rfl, fun _ _ _ _ => rfl⟩
        ⟨rfl, rfl, fun _ _ _ _ => rfl⟩
        (by decide) (by decide) (by decide)).imp
      fun res h => h.imp fun d' h2 => ⟨h2.1, h2.2.1⟩⟩

/-! ## Lemmas: prediction and the accuracy metric -/

/-- `Predict`'s fold over the layer list equals the unskipped forward pass
over the filtered (dropout-free) layer list, for any draw oracle and any
counter: the skipped layers are exactly the filtered-out ones, and a dense
layer ignores its draw argument. -/
theorem predict_foldl_filter (draws : ℕ → Mat) :
    ∀ (ls : List Layer) (oy : Option Mat) (k : ℕ),
      ls.foldl
        (fun oy l =>
          if l.isTraining then oy
          else oy.bind fun y => l.forwardPropagate y (Mat.mk [])) oy =
      forwardAllLayers draws (ls.filter fun l => !l.isTraining) oy k := by
  intro ls
  induction ls with
  | nil => intro oy k; rfl
  | cons l rest ih =>
    intro oy k
    cases l with
    | denseL d =>
      simp only [List.foldl_cons, List.filter_cons, Layer.isTraining,
        Bool.not_false, if_true, if_false, forwardAllLayers,
        Layer.forwardPropagate]
      exact ih _ _
    | dropoutL m rt =>
      simp only [List.foldl_cons, List.filter_cons, Layer.isTraining,
        Bool.not_true, if_true, if_false]
      exact ih _ _

/-- C9.  With fixed weights and biases, `Predict` is deterministic (it is
a pure function of the network and input, consuming no randomness), and
its result equals the forward pass of the network with every Dropout
layer (`IsTraining() = true`) removed, for every draw oracle. -/
theorem predict_deterministic_and_skips_dropout (n : Network) (X : Mat)
    (draws : ℕ → Mat) (k : ℕ) :
    n.Predict X = n.Predict X ∧
    n.Predict X =
      forwardAllLayers draws n.removeTrainingLayers.layers (some X) k :=
  ⟨rfl, predict_foldl_filter draws n.layers (some X) k⟩

/-- The early-exit row walk of `Accuracy.Calculate` counts a column
exactly when every listed row difference is within `precision`
(a difference exactly equal to `precision` does not trigger the
`> precision` bail-out). -/
theorem accColumnOk_eq_true_iff (yTrue yHat : Mat) (precision : ℚ) (j : ℕ) :
    ∀ is : List ℕ,
      accColumnOk yTrue yHat precision j is = true ↔
        ∀ i ∈ is, |yHat.At i j - yTrue.At i j| ≤ precision := by
  intro is
  induction is with
  | nil => simp [accColumnOk]
  | cons i rest ih =>
    unfold accColumnOk
    by_cases h : |yHat.At i j - yTrue.At i j| > precision
    · simp only [if_pos h]
      constructor
      · intro hfalse; exact absurd hfalse (by simp)
      · intro hall; exact absurd (hall i (by simp)) (not_le.mpr h)
    · simp only [if_neg h, ih]
      constructor
      · intro hall t ht
        rcases List.mem_cons.mp ht with he | hm
        · exact he ▸ not_lt.mp h
        · exact hall t hm
      · intro hall t ht; exact hall t (List.mem_cons_of_mem i ht)

/-- C10.  `Accuracy.Calculate` counts a sample (column) as correct exactly
when every output row satisfies `|prediction - label| ≤ epsilon` (so a
difference exactly equal to epsilon still counts), where an `Epsilon`
field of exactly `0` is silently replaced by the package default `1e-5`;
the returned fraction is the correct count divided by the column count. -/
theorem accuracy_calculate_characterization (a : Accuracy) (yTrue yHat : Mat)
    (hcols : 0 < yTrue.colCount) :
    a.Calculate yTrue yHat =
      (((List.range yTrue.colCount).countP fun j =>
          decide (∀ i, i < yTrue.rowCount →
            |yHat.At i j - yTrue.At i j| ≤
              (if a.Epsilon = 0 then 1/100000 else a.Epsilon))) : ℚ) /
        (yTrue.colCount : ℚ) := by
  have hpt : ∀ j,
      accColumnOk yTrue yHat (if a.Epsilon = 0 then DefaultEpsilon else a.Epsilon)
          j (List.range yTrue.rowCount) =
        decide (∀ i, i < yTrue.rowCount →
          |yHat.At i j - yTrue.At i j| ≤
            (if a.Epsilon = 0 then 1/100000 else a.Epsilon)) := by
    intro j
    have hde : DefaultEpsilon = (1 : ℚ)/100000 := rfl
    by_cases hp : ∀ i, i < yTrue.rowCount →
        |yHat.At i j - yTrue.At i j| ≤
          (if a.Epsilon = 0 then 1/100000 else a.Epsilon)
    · rw [decide_eq_true hp]
      exact (accColumnOk_eq_true_iff yTrue yHat _ j _).mpr fun i hi =>
        hde ▸ hp i (List.mem_range.mp hi)
    · rw [decide_eq_false hp]
      rcases hb : accColumnOk yTrue yHat
          (if a.Epsilon = 0 then DefaultEpsilon else a.Epsilon) j
          (List.range yTrue.rowCount) with _ | _
      · rfl
      · exact absurd
          (fun i hi => hde ▸
            (accColumnOk_eq_true_iff yTrue yHat _ j _).mp hb i
              (List.mem_range.mpr hi)) hp
  unfold Accuracy.Calculate
  simp only [List.countP_eq_length_filter, hpt]

/-- C10 witness: the repository's own regression test case
(`yTrue = yHat = [[0.04, 0.1]]`, epsilon `1e-20`) has two columns, and the
characterization applies. -/
theorem accuracy_calculate_characterization_witness :
    0 < (Mat.mk [[(4:ℚ)/100, 1/10]]).colCount ∧
    Accuracy.Calculate ⟨1/10^20⟩ ⟨[[4/100, 1/10]]⟩ ⟨[[4/100, 1/10]]⟩ =
      (((List.range (Mat.mk [[(4:ℚ)/100, 1/10]]).colCount).countP fun j =>
          decide (∀ i, i < (Mat.mk [[(4:ℚ)/100, 1/10]]).rowCount →
            |(Mat.mk [[(4:ℚ)/100, 1/10]]).At i j -
                (Mat.mk [[(4:ℚ)/100, 1/10]]).At i j| ≤
              (if (Accuracy.mk (1/10^20)).Epsilon = 0 then 1/100000
               else (Accuracy.mk (1/10^20)).Epsilon))) : ℚ) /
        ((Mat.mk [[(4:ℚ)/100, 1/10]]).colCount : ℚ) :=
  ⟨by decide,
    accuracy_calculate_characterization ⟨1/10^20⟩ ⟨[[4/100, 1/10]]⟩
      ⟨[[4/100, 1/10]]⟩ (by decide)⟩

/-! ## Lemmas: training-loop control flow -/

/-- If `validateTrainSamples` reports no error on equally long batch
lists, every batch pair passes its shape check. -/
theorem validateTrainSamples_none {n : Network} :
    ∀ {X Y : List Mat}, n.validateTrainSamples X Y = none →
      X.length = Y.length →
      ∀ i, i < X.length →
        n.batchError (X.getD i ⟨[]⟩) (Y.getD i ⟨[]⟩) = none := by
  intro X
  induction X with
  | nil => intro Y _ _ i hi; exact absurd hi (by simp)
  | cons Xb xs ih =>
    intro Y hval hlen i hi
    cases Y with
    | nil => exact absurd hlen (by simp)
    | cons Yb ys =>
      unfold Network.validateTrainSamples at hval
      rcases hbe : n.batchError Xb Yb with _ | e
      · rw [hbe] at hval
        cases i with
        | zero => exact hbe
        | succ i' =>
          exact ih hval (by simpa using hlen) i' (by simpa using hi)
      · rw [hbe] at hval; exact absurd hval (by simp)

/-- C5.  If some batch has an input row count different from the
network's input size, or a label row count different from the network's
output size, or mismatched per-batch sample counts, then `Train` returns
a shape error immediately: the returned network and parameter object are
exactly the ones passed in — no forward pass, backward pass, or weight
update has touched them. -/
theorem train_shape_validation_aborts {n : Network} {X Y : List Mat} {p : NNP}
    (draws : ℕ → Mat) (hlen : X.length = Y.length)
    (hbad : ∃ i, i < X.length ∧
      ((X.getD i ⟨[]⟩).rowCount ≠ n.inputRows ∨
       (Y.getD i ⟨[]⟩).rowCount ≠ n.outputRows ∨
       (X.getD i ⟨[]⟩).colCount ≠ (Y.getD i ⟨[]⟩).colCount)) :
    ∃ err, n.Train X Y p draws = some (n, p, some err) := by
  obtain ⟨i, hi, hcond⟩ := hbad
  have hval : n.validateTrainSamples X Y ≠ none := by
    intro h
    have hb := validateTrainSamples_none h hlen i hi
    unfold Network.batchError at hb
    split_ifs at hb with h1 h2 h3
    rcases hcond with hc | hc | hc
    · exact h1 hc
    · exact h2 hc
    · exact h3 hc
  obtain ⟨err, herr⟩ := Option.ne_none_iff_exists'.mp hval
  refine ⟨err, ?_⟩
  unfold Network.Train
  rw [herr]

/-- C5 witness: a one-layer `1 → 1` network fed a batch with two input
rows aborts with the validation error and unchanged state. -/
theorem train_shape_validation_aborts_witness :
    [Mat.mk [[1], [1]]].length = [Mat.mk [[0]]].length ∧
    ∃ err,
      Network.Train ⟨[Layer.denseL ⟨⟨[[1]]⟩, ⟨[[0]]⟩, linearActivation⟩],
          squareLossF⟩ [⟨[[1], [1]]⟩] [⟨[[0]]⟩]
          ⟨0, 1, 0, 1, 0, some 1000, fun _ _ => 0⟩ (fun _ => ⟨[]⟩) =
        some (⟨[Layer.denseL ⟨⟨[[1]]⟩, ⟨[[0]]⟩, linearActivation⟩],
          squareLossF⟩, ⟨0, 1, 0, 1, 0, some 1000, fun _ _ => 0⟩, some err) :=
  ⟨rfl,
    train_shape_validation_aborts (fun _ => ⟨[]⟩) rfl
      ⟨0, by decide, Or.inl (by decide)⟩⟩

/-- Running the epoch loop after a successfully completed (non-diverged)
prefix of `e` epochs equals running it from the state that prefix
reached. -/
theorem epochLoop_after_runEpochsOk (draws : ℕ → Mat) (X Y : List Mat) :
    ∀ (e : ℕ) {n : Network} {p : NNP} {k : ℕ} {s : Network × NNP × ℕ},
      Network.runEpochsOk draws X Y e n p k = some s →
      ∀ m, Network.epochLoop draws X Y (e + m) n p k =
        Network.epochLoop draws X Y m s.1 s.2.1 s.2.2 := by
  intro e
  induction e with
  | zero =>
    intro n p k s h m
    simp only [Network.runEpochsOk, Option.some.injEq] at h
    subst h
    rw [Nat.zero_add]
  | succ e' ih =>
    intro n p k s h m
    rw [show e' + 1 + m = (e' + m) + 1 by omega]
    rcases hup : Network.trainUpdatePhase draws p n X Y k with _ | nk
    · rw [Network.runEpochsOk, hup, Option.none_bind] at h
      exact absurd h (by simp)
    · rcases hcp : Network.costPhase p X.length nk.1 X Y 0 0 with _ | res
      · rw [Network.runEpochsOk, hup, Option.some_bind, hcp,
          Option.none_bind] at h
        exact absurd h (by simp)
      · rcases res with msg | ca
        · simp only [Network.runEpochsOk, hup, Option.some_bind, hcp,
            Option.some_bind] at h
          exact absurd h (by simp)
        · simp only [Network.runEpochsOk, hup, Option.some_bind, hcp,
            Option.some_bind] at h
          simp only [Network.epochLoop, hup, Option.some_bind, hcp,
            Option.some_bind]
          exact ih h m

/-- C6.  Suppose `Train`'s inputs validate, the first `e` epochs complete
without divergence reaching state `s`, and in epoch `e` (still within the
epoch budget) the update phase produces network `n'` after which the
cost-accumulation phase hits an invalid (NaN/infinite/exactly-zero —
exactly zero in the rational model) accumulated cost.  Then `Train`
terminates at once with the fatal divergence error, returning exactly
`n'`: every weight update of epochs `0..e` is kept (no rollback), and no
further batch or epoch is run. -/
theorem train_divergence_fatal {n : Network} {X Y : List Mat} {parameters : NNP}
    (draws : ℕ → Mat) {e : ℕ} {s : Network × NNP × ℕ} {n' : Network} {k' : ℕ}
    (hval : n.validateTrainSamples X Y = none)
    (hrun : Network.runEpochsOk draws X Y e n parameters.Validate.ResetEpoch 0 =
      some s)
    (he : e < parameters.Validate.EpochCount)
    (hupd : Network.trainUpdatePhase draws s.2.1 s.1 X Y s.2.2 = some (n', k'))
    (hdiv : Network.costPhase s.2.1 X.length n' X Y 0 0 =
      some (Except.error "cost is an invalid number")) :
    n.Train X Y parameters draws =
      some (n', s.2.1, some "cost is an invalid number") := by
  obtain ⟨m, hm⟩ : ∃ m, parameters.Validate.EpochCount = e + (m + 1) :=
    ⟨parameters.Validate.EpochCount - e - 1, by omega⟩
  simp only [Network.Train, hval]
  rw [show parameters.Validate.ResetEpoch.EpochCount = e + (m + 1) from hm]
  rw [epochLoop_after_runEpochsOk draws X Y e hrun (m + 1)]
  simp only [Network.epochLoop, hupd, Option.some_bind, hdiv, Option.map_some']

/-- C6 witness: a `1 → 1` linear network whose prediction already matches
the label has training cost exactly `0`; `Train` diverges in epoch 0 and
returns the fatal error with the post-update state. -/
theorem train_divergence_fatal_witness :
    Network.Train
        ⟨[Layer.denseL ⟨⟨[[1]]⟩, ⟨[[0]]⟩, linearActivation⟩], squareLossF⟩
        [⟨[[0]]⟩] [⟨[[0]]⟩] ⟨0, 1, 0, 1, 0, some 1000, fun _ _ => 0⟩
        (fun _ => ⟨[]⟩) =
      some (⟨[Layer.denseL ⟨⟨[[1]]⟩, ⟨[[0]]⟩, linearActivation⟩], squareLossF⟩,
        (⟨0, 1, 0, 1, 0, some 1000, fun _ _ => 0⟩ : NNP).Validate.ResetEpoch,
        some "cost is an invalid number") :=
  @train_divergence_fatal
    ⟨[Layer.denseL ⟨⟨[[1]]⟩, ⟨[[0]]⟩, linearActivation⟩], squareLossF⟩
    [⟨[[0]]⟩] [⟨[[0]]⟩] ⟨0, 1, 0, 1, 0, some 1000, fun _ _ => 0⟩
    (fun _ => ⟨[]⟩) 0
    (⟨[Layer.denseL ⟨⟨[[1]]⟩, ⟨[[0]]⟩, linearActivation⟩], squareLossF⟩,
      (⟨0, 1, 0, 1, 0, some 1000, fun _ _ => 0⟩ : NNP).Validate.ResetEpoch, 0)
    ⟨[Layer.denseL ⟨⟨[[1]]⟩, ⟨[[0]]⟩, linearActivation⟩], squareLossF⟩ 0
    rfl rfl (by decide)
    (by with_unfolding_all rfl) (by with_unfolding_all rfl)

/-- A successful epoch-loop run from epoch index `e` equals the
weight-update-only run whose epoch `f` explicitly uses the parameter
object with `currentEpoch := f` — the epoch counter is incremented exactly
once per epoch. -/
theorem epochLoop_success_scheduled (draws : ℕ → Mat) (X Y : List Mat)
    (pbase : NNP) :
    ∀ (m e : ℕ) {n : Network} {k : ℕ} {n' : Network} {p' : NNP},
      Network.epochLoop draws X Y m n { pbase with currentEpoch := e } k =
        some (n', p', none) →
      (∃ k', Network.scheduledUpdatePhases draws X Y pbase e m n k =
        some (n', k')) ∧
        p' = { pbase with currentEpoch := e + m } := by
  intro m
  induction m with
  | zero =>
    intro e n k n' p' h
    simp only [Network.epochLoop, Option.some.injEq, Prod.mk.injEq] at h
    obtain ⟨hn, hp, -⟩ := h
    subst hn
    refine ⟨⟨k, rfl⟩, ?_⟩
    rw [Nat.add_zero]
    exact hp.symm
  | succ m' ih =>
    intro e n k n' p' h
    rcases hup : Network.trainUpdatePhase draws { pbase with currentEpoch := e }
        n X Y k with _ | nk
    · rw [Network.epochLoop, hup, Option.none_bind] at h
      exact absurd h (by simp)
    · rcases hcp : Network.costPhase { pbase with currentEpoch := e } X.length
          nk.1 X Y 0 0 with _ | res
      · rw [Network.epochLoop, hup, Option.some_bind, hcp,
          Option.none_bind] at h
        exact absurd h (by simp)
      · rcases res with msg | ca
        · simp only [Network.epochLoop, hup, Option.some_bind, hcp,
            Option.some_bind, Option.some.injEq, Prod.mk.injEq] at h
          exact absurd h.2.2 (by simp)
        · simp only [Network.epochLoop, hup, Option.some_bind, hcp,
            Option.some_bind] at h
          have h' : Network.epochLoop draws X Y m' nk.1
              { pbase with currentEpoch := e + 1 } nk.2 = some (n', p', none) := h
          obtain ⟨⟨k', hk'⟩, hp⟩ := ih (e + 1) h'
          refine ⟨⟨k', ?_⟩, ?_⟩
          · simp only [Network.scheduledUpdatePhases, hup, Option.some_bind]
            exact hk'
          · rw [hp]
            have ht : e + 1 + m' = e + (m' + 1) := by omega
            exact congrArg (fun t => { pbase with currentEpoch := t }) ht

/-- C7.  The parameter object's learning rate always equals
`InitialLearningRate / (1 + LearningRateDecay * currentEpoch)`; a
successful `Train` run resets the epoch counter at the start, increments
it exactly once per epoch, and resets it again at the end, so its weight
updates coincide with the explicitly scheduled run in which epoch `e` uses
the counter value `e` — hence learning rate `lr0 / (1 + decay·e)` — and
the final parameter copy carries counter `0`. -/
theorem train_learning_rate_schedule {n : Network} {X Y : List Mat}
    {parameters : NNP} {draws : ℕ → Mat} {n' : Network} {p' : NNP}
    (hsucc : n.Train X Y parameters draws = some (n', p', none)) :
    (∃ k', Network.scheduledUpdatePhases draws X Y
        parameters.Validate.ResetEpoch 0 parameters.Validate.EpochCount n 0 =
      some (n', k')) ∧
    p'.currentEpoch = 0 ∧
    ∀ (q : NNP) (e : ℕ),
      ({ q with currentEpoch := e } : NNP).LearningRate =
        q.InitialLearningRate / (1 + q.LearningRateDecay * (e : ℚ)) := by
  rcases hval : n.validateTrainSamples X Y with _ | err
  · simp only [Network.Train, hval] at hsucc
    rcases hep : Network.epochLoop draws X Y
        parameters.Validate.ResetEpoch.EpochCount n
        parameters.Validate.ResetEpoch 0 with _ | s
    · rw [hep] at hsucc; exact absurd hsucc (by simp)
    · rw [hep, Option.map_some'] at hsucc
      rcases s with ⟨n2, p2, res⟩
      rcases res with _ | msg
      · simp only [Option.some.injEq, Prod.mk.injEq] at hsucc
        obtain ⟨hn, hp, -⟩ := hsucc
        have hep' : Network.epochLoop draws X Y
            parameters.Validate.ResetEpoch.EpochCount n
            { parameters.Validate.ResetEpoch with currentEpoch := 0 } 0 =
              some (n2, p2, none) := hep
        obtain ⟨⟨k', hk'⟩, -⟩ := epochLoop_success_scheduled draws X Y
          parameters.Validate.ResetEpoch parameters.Validate.ResetEpoch.EpochCount
          0 hep'
        refine ⟨⟨k', ?_⟩, ?_, fun q e => rfl⟩
        · rw [← hn]; exact hk'
        · rw [← hp]; rfl
      · simp only [Option.some.injEq, Prod.mk.injEq] at hsucc
        exact absurd hsucc.2.2 (by simp)
  · simp only [Network.Train, hval] at hsucc
    simp only [Option.some.injEq, Prod.mk.injEq] at hsucc
    exact absurd hsucc.2.2 (by simp)

/-- C7 witness: a concrete two-epoch linear-regression step (decay `1`,
initial rate `1/10`) trains successfully; its final weights equal the
scheduled update run and the returned parameter copy has epoch counter
`0`. -/
theorem train_learning_rate_schedule_witness :
    (∃ k', Network.scheduledUpdatePhases (fun _ => ⟨[]⟩) [⟨[[1]]⟩] [⟨[[0]]⟩]
        (⟨0, 2, 1, 1/10, 0, some 1000, fun _ _ => 0⟩ : NNP).Validate.ResetEpoch 0
        (⟨0, 2, 1, 1/10, 0, some 1000, fun _ _ => 0⟩ : NNP).Validate.EpochCount
        ⟨[Layer.denseL ⟨⟨[[1]]⟩, ⟨[[0]]⟩, linearActivation⟩], squareLossF⟩ 0 =
      some (⟨[Layer.denseL ⟨⟨[[217/250]]⟩, ⟨[[-33/250]]⟩, linearActivation⟩],
        squareLossF⟩, k')) ∧
    (⟨0, 2, 1, 1/10, 0, some 1000, fun _ _ => 0⟩ : NNP).currentEpoch = 0 ∧
    ∀ (q : NNP) (e : ℕ),
      ({ q with currentEpoch := e } : NNP).LearningRate =
        q.InitialLearningRate / (1 + q.LearningRateDecay * (e : ℚ)) :=
  train_learning_rate_schedule (by with_unfolding_all rfl)

end Mlgo
